import Mathlib

/-!
Shallow embedding of `py.py`, a one-shot Maven descriptor report tool:
filesystem traversal (`find_pom_files`), property resolution
(`resolve_property`), configuration parsing (`read_env_variables`),
per-descriptor extraction (`extract_project_info`) and HTML report
assembly (`process_projects`).

Modelling conventions:
- A parsed XML element is `XElem` (tag, optional text, children in
  document order).  Namespace prefixes are uniform in the source
  (`ns` = the Maven POM namespace on every lookup), so tags are modelled
  by their local names.
- Python exceptions are explicit: a computation that can raise returns
  `Except PyExc _`.  `extract_project_info` catches exactly
  `(ParseError, AttributeError)` as in the source.
- `None` propagation from ElementTree is modelled with `Option`:
  `Element.text` is `Option String`, a failed `find` is `none`, and
  dereferencing `.text` on a failed `find` raises `AttributeError`.
- Python f-string interpolation of a possibly-`None` value is `pyStr`
  (`str(None) = "None"`).
- The filesystem is a tree of `FSEntry` values; reading
  `application.properties` is abstracted as the optional list of its
  lines carried on the extraction input (`PomInput.envLines`).
-/

/-- A Python exception that the program's code paths can raise. -/
inductive PyExc where
  | parseError
  | attributeError
  | typeError
deriving DecidableEq, Repr

/-- A parsed XML element: tag name, optional text content, children in
document order.  `text` is `none` when the element has no text, as in
ElementTree. -/
inductive XElem where
  | mk (tag : String) (text : Option String) (children : List XElem)

/-- Tag name of an element. -/
def XElem.tag : XElem → String
  | .mk t _ _ => t

/-- Text content of an element (`Element.text`, possibly `None`). -/
def XElem.text : XElem → Option String
  | .mk _ x _ => x

/-- Children of an element in document order. -/
def XElem.children : XElem → List XElem
  | .mk _ _ c => c

/-- `element.find(tag)`: first direct child with the given tag, if any. -/
def findChild (e : XElem) (t : String) : Option XElem :=
  e.children.find? (fun c => c.tag == t)

mutual
/-- All proper descendants of an element in document (pre-)order,
as enumerated by ElementTree's `.//` axis. -/
def descendants : XElem → List XElem
  | .mk _ _ cs => descendantsList cs

/-- Descendant enumeration over a sibling list. -/
def descendantsList : List XElem → List XElem
  | [] => []
  | c :: cs => c :: descendants c ++ descendantsList cs
end

/-- `root.findall(".//tag")`: every descendant with the given tag, in
document order. -/
def findall (e : XElem) (t : String) : List XElem :=
  (descendants e).filter (fun c => c.tag == t)

/-- Python `str(x)` applied to a `str | None` value, as happens inside an
f-string: `None` prints as `"None"`. -/
def pyStr : Option String → String
  | some s => s
  | none => "None"

/-- Python substring test `needle in hay` on character lists. -/
def listContainsSub (needle : List Char) : List Char → Bool
  | [] => needle.isEmpty
  | c :: rest => needle.isPrefixOf (c :: rest) || listContainsSub needle rest

/-- Python `sub in s` for strings. -/
def pyIn (sub s : String) : Bool :=
  listContainsSub sub.data s.data

/-- Python slice `s[2:-1]`. -/
def pySlice2m1 (s : String) : String :=
  ((s.data.drop 2).dropLast).asString

/-- Python `s.strip()`: drop leading and trailing whitespace. -/
def pyStrip (s : String) : String :=
  (((s.data.dropWhile Char.isWhitespace).reverse.dropWhile
      Char.isWhitespace).reverse).asString

/-- Python `s.startswith("#")`. -/
def startsWithHash (s : String) : Bool :=
  match s.data with
  | '#' :: _ => true
  | _ => false

/-- Python `line.split("=", 1)` restricted to the success case: split a
character list at the first `'='`, returning the parts before and after
it; `none` when no `'='` occurs (the source's `ValueError` case). -/
def splitFirstEq : List Char → Option (List Char × List Char)
  | [] => none
  | c :: cs =>
    if c = '=' then some ([], cs)
    else
      match splitFirstEq cs with
      | some kv => some (c :: kv.1, kv.2)
      | none => none

/-- Python dict assignment `d[k] = v` on an insertion-ordered
association list: an existing key keeps its position and gets the new
value, a new key is appended. -/
def dictInsert (m : List (String × String)) (k v : String) :
    List (String × String) :=
  if m.any (fun p => p.1 == k) then
    m.map (fun p => if p.1 == k then (k, v) else p)
  else
    m ++ [(k, v)]

/-- One iteration of the line loop of `read_env_variables`
(`py.py` lines 34-41): strip the line, skip it when empty or a comment,
otherwise split on the first `=` into stripped key and value and store
them; a line with no `=` is silently ignored. -/
def processEnvLine (m : List (String × String)) (rawLine : String) :
    List (String × String) :=
  let line := pyStrip rawLine
  if line = "" then m
  else if startsWithHash line then m
  else
    match splitFirstEq line.data with
    | some kv => dictInsert m (pyStrip kv.1.asString) (pyStrip kv.2.asString)
    | none => m

/-- `read_env_variables` (`py.py` lines 29-42).  The filesystem read is
abstracted: the argument is `none` when `application.properties` does
not exist, else the list of its lines. -/
def read_env_variables : Option (List String) → List (String × String)
  | none => []
  | some lines => lines.foldl processEnvLine []

/-- `resolve_property` (`py.py` lines 20-27): look for a direct
`properties` child of the root, then a direct child with the property's
name, and return its text; `None` (here `none`) when the chain fails or
the property element has no text. -/
def resolve_property (pom_tree : XElem) (prop_name : String) :
    Option String :=
  match findChild pom_tree "properties" with
  | some properties =>
    match findChild properties prop_name with
    | some prop_element => prop_element.text
    | none => none
  | none => none

/-- Lexicographic comparison of character lists by code point, the
ordering Python's `sorted` uses on strings. -/
def charListLe : List Char → List Char → Bool
  | [], _ => true
  | _ :: _, [] => false
  | a :: as, b :: bs =>
    if a = b then charListLe as bs else decide (a < b)

/-- String comparison by code points (Python `<=` on `str`), as a
proposition. -/
def strLeProp (a b : String) : Prop :=
  charListLe a.data b.data = true

instance : DecidableRel strLeProp :=
  fun a b => instDecidableEqBool (charListLe a.data b.data) true

/-- Python `sorted` on a list of strings: ascending lexicographic order
by code point. -/
def sortStrings (l : List String) : List String :=
  List.insertionSort strLeProp l

/-- The extraction input for one descriptor file: its path, the outcome
of XML parsing (`none` models a file whose parse raises `ParseError`),
and the adjacent `application.properties` content for
`read_env_variables` (`none` when the file does not exist). -/
structure PomInput where
  path : String
  parsed : Option XElem
  envLines : Option (List String)

/-- The tuple a successful `extract_project_info` returns
(`py.py` line 81). -/
structure ProjectRecord where
  name : String
  apiDependencies : List String
  dependencies : List String
  envVariables : List (String × String)
  path : String
deriving DecidableEq

/-- The API-dependency display string with a version part:
`f"{g}:{a} ({v})"`. -/
def apiString (g a : Option String) (v : String) : String :=
  pyStr g ++ ":" ++ pyStr a ++ " (" ++ v ++ ")"

/-- Formatting of one `artifactItem` (`py.py` lines 58-74): read its
`groupId` and `artifactId` texts (a missing child raises
`AttributeError`), then the optional `version`.  A version whose text
contains `${` and `}` is a placeholder: its inner name is resolved
against the root's properties block and a truthy result replaces the raw
text.  A present `version` element with no text raises `TypeError`
(Python evaluates `"${" in None`). -/
def formatApiItem (root item : XElem) : Except PyExc String :=
  match findChild item "groupId" with
  | none => .error .attributeError
  | some gEl =>
    match findChild item "artifactId" with
    | none => .error .attributeError
    | some aEl =>
      match findChild item "version" with
      | none => .ok (pyStr gEl.text ++ ":" ++ pyStr aEl.text)
      | some vEl =>
        match vEl.text with
        | none => .error .typeError
        | some version_text =>
          if pyIn "$\x7b" version_text && pyIn "\x7d" version_text then
            match resolve_property root (pySlice2m1 version_text) with
            | some rv =>
              if rv = "" then .ok (apiString gEl.text aEl.text version_text)
              else .ok (apiString gEl.text aEl.text rv)
            | none => .ok (apiString gEl.text aEl.text version_text)
          else .ok (apiString gEl.text aEl.text version_text)

/-- Formatting of one `dependency` element (`py.py` lines 75-78): read
`groupId` and `artifactId` texts (a missing child raises
`AttributeError`) and join them. -/
def formatDep (dep : XElem) : Except PyExc String :=
  match findChild dep "groupId" with
  | none => .error .attributeError
  | some gEl =>
    match findChild dep "artifactId" with
    | none => .error .attributeError
    | some aEl => .ok (pyStr gEl.text ++ ":" ++ pyStr aEl.text)

/-- Left-to-right effectful map over `Except`: the loop shape of the
`artifactItem` and `dependency` loops, stopping at the first raised
exception. -/
def exceptMapM (f : α → Except PyExc β) : List α → Except PyExc (List β)
  | [] => .ok []
  | x :: xs =>
    match f x with
    | .error e => .error e
    | .ok y =>
      match exceptMapM f xs with
      | .error e => .error e
      | .ok ys => .ok (y :: ys)

/-- The body of `extract_project_info`'s `try` block
(`py.py` lines 46-84): parse, locate the root's direct `groupId` and
`artifactId` children (if either is missing, print and return the `None`
tuple — modelled `.ok none`), format every `artifactItem` and every
`dependency` in document order, sort the API list, and assemble the
record. -/
def extractBody (inp : PomInput) : Except PyExc (Option ProjectRecord) :=
  match inp.parsed with
  | none => .error .parseError
  | some root =>
    match findChild root "groupId", findChild root "artifactId" with
    | some gEl, some aEl =>
      match exceptMapM (formatApiItem root) (findall root "artifactItem") with
      | .error e => .error e
      | .ok api_dependencies =>
        match exceptMapM formatDep (findall root "dependency") with
        | .error e => .error e
        | .ok dependencies =>
          .ok (some
            { name := pyStr gEl.text ++ ":<b>" ++ pyStr aEl.text ++ "</b>"
              apiDependencies := sortStrings api_dependencies
              dependencies := dependencies
              envVariables := read_env_variables inp.envLines
              path := inp.path })
    | _, _ => .ok none

/-- `extract_project_info` (`py.py` lines 45-87): run the body and catch
exactly `(ParseError, AttributeError)`, turning them into the `None`
tuple (`.ok none`); any other exception propagates uncaught. -/
def extract_project_info (inp : PomInput) :
    Except PyExc (Option ProjectRecord) :=
  match extractBody inp with
  | .error .parseError => .ok none
  | .error .attributeError => .ok none
  | r => r

/-- `<ul>` rendering of a list cell (`py.py` lines 109-122): an empty
list renders as an empty cell, Python list truthiness. -/
def renderList (l : List String) : String :=
  if l.isEmpty then ""
  else "<ul>" ++ String.join (l.map (fun s => "<li>" ++ s ++ "</li>")) ++ "</ul>"

/-- `<ul>` rendering of the ENV variable cell (`py.py` lines 123-129). -/
def renderEnv (m : List (String × String)) : String :=
  if m.isEmpty then ""
  else
    "<ul>" ++
      String.join (m.map (fun p => "<li>" ++ p.1 ++ ": " ++ p.2 ++ "</li>")) ++
    "</ul>"

/-- One emitted table row (`py.py` lines 105-130). -/
def renderRow (counter : Nat) (r : ProjectRecord) : String :=
  "<tr>" ++
  "<td>" ++ toString counter ++ "</td>" ++
  "<td>" ++ r.name ++ "</td>" ++
  "<td class=\x27path-column\x27>" ++ r.path ++ "</td>" ++
  "<td>" ++ renderList r.apiDependencies ++ "</td>" ++
  "<td>" ++ renderList r.dependencies ++ "</td>" ++
  "<td>" ++ renderEnv r.envVariables ++ "</td>" ++
  "</tr>"

/-- The fixed stylesheet and header row prepended to the table
(`py.py` lines 91-99). -/
def htmlHeader : String :=
  "<style>" ++
  "table \x7b width: 100%; border-collapse: collapse; \x7d" ++
  "th, td \x7b border: 1px solid black; padding: 8px; text-align: left; \x7d" ++
  "th \x7b background-color: #f2f2f2; \x7d" ++
  ".path-column \x7b width: 150px; word-wrap: break-word; \x7d" ++
  "</style>" ++
  "<div style=\x27overflow-x:auto;\x27>" ++
  "<table>" ++
  "<tr><th>#</th><th>Project Name</th>" ++
  "<th style=\x27width: 200px;\x27>Path to pom.xml</th>" ++
  "<th>API Dependencies</th><th>Dependencies</th><th>ENV Variables</th></tr>"

/-- The main loop of `process_projects` (`py.py` lines 101-131):
accumulate HTML and a 1-based counter, emitting a row and bumping the
counter only when extraction produced a record; an uncaught exception
from extraction aborts the run. -/
def processProjectsLoop :
    List PomInput → String → Nat → Except PyExc (String × Nat)
  | [], html, counter => .ok (html, counter)
  | f :: fs, html, counter =>
    match extract_project_info f with
    | .error e => .error e
    | .ok none => processProjectsLoop fs html counter
    | .ok (some r) =>
      processProjectsLoop fs (html ++ renderRow counter r) (counter + 1)

/-- `process_projects` (`py.py` lines 89-136) up to traversal and the
final file write: the document it renders for a given list of extraction
inputs. -/
def process_projects (files : List PomInput) : Except PyExc String :=
  match processProjectsLoop files htmlHeader 1 with
  | .error e => .error e
  | .ok (html, _) => .ok (html ++ "</table>" ++ "</div>")

/-- The records a run emits rows for, in production order:
per-file extraction outcomes that yielded a record. -/
def successfulRecords (files : List PomInput) : List ProjectRecord :=
  files.filterMap (fun f =>
    match extract_project_info f with
    | .ok (some r) => some r
    | _ => none)

/-- Whether extraction completed without an uncaught exception. -/
def extractionOk (f : PomInput) : Bool :=
  match extract_project_info f with
  | .ok _ => true
  | .error _ => false

/-- A filesystem entry: a plain file or a directory with its entries in
listing order. -/
inductive FSEntry where
  | file (nm : String)
  | dir (nm : String) (children : List FSEntry)

/-- Name of a filesystem entry. -/
def FSEntry.name : FSEntry → String
  | .file n => n
  | .dir n _ => n

/-- Whether an entry is a directory (`DirEntry.is_dir`). -/
def FSEntry.isDir : FSEntry → Bool
  | .dir _ _ => true
  | .file _ => false

/-- Entries of a directory, `[]` for a file. -/
def dirChildren : FSEntry → List FSEntry
  | .dir _ cs => cs
  | .file _ => []

/-- Names of the plain files among a directory's entries (the `files`
component of an `os.walk` triple). -/
def fileNamesIn (cs : List FSEntry) : List String :=
  cs.filterMap (fun e =>
    match e with
    | .file n => some n
    | .dir _ _ => none)

/-- `os.path.join`, POSIX form. -/
def pathJoin (a b : String) : String :=
  a ++ "/" ++ b

/-- `os.path.exists(join(d, nm))` for a directory `d`: true when `d` has
any entry — file or directory — named `nm`. -/
def hasEntryNamed (d : FSEntry) (nm : String) : Bool :=
  (dirChildren d).any (fun e => e.name == nm)

mutual
/-- `os.walk` (top-down) restricted to what the source consumes: the
`(dirpath, filenames)` pairs, root first, then each child subtree in
listing order. -/
def walkEntry (path : String) : FSEntry → List (String × List String)
  | .file _ => []
  | .dir _ cs => (path, fileNamesIn cs) :: walkChildren path cs

/-- `os.walk` continuation over a list of sibling entries. -/
def walkChildren (path : String) : List FSEntry → List (String × List String)
  | [] => []
  | e :: es => walkEntry (pathJoin path e.name) e ++ walkChildren path es
end

/-- `find_pom_files` (`py.py` lines 5-18): with subfolders, walk the
whole subtree and collect every file named `pom.xml`; without, scan the
root's direct subdirectories and include `sub/pom.xml` whenever that
path exists. -/
def find_pom_files (rootPath : String) (root : FSEntry)
    (include_subfolders : Bool) : List String :=
  if include_subfolders then
    (walkEntry rootPath root).flatMap (fun pr =>
      (pr.2.filter (fun f => f == "pom.xml")).map (fun f => pathJoin pr.1 f))
  else
    ((dirChildren root).filter FSEntry.isDir).filterMap (fun d =>
      if hasEntryNamed d "pom.xml" then
        some (pathJoin (pathJoin rootPath d.name) "pom.xml")
      else none)

mutual
/-- Modelled from the spec ("walk the entire subtree rooted at
`rootDir`; include the path of every file matching the descriptor
filename, at any depth"): the paths of the files named `pom.xml` in the
subtree of an entry, directory by directory in top-down order. -/
def pomFilePathsSpec (path : String) : FSEntry → List String
  | .file _ => []
  | .dir _ cs =>
    ((fileNamesIn cs).filter (fun f => f == "pom.xml")).map (pathJoin path) ++
      pomFilePathsSpecList path cs

/-- Subtree pom.xml file paths over a list of sibling entries. -/
def pomFilePathsSpecList (path : String) : List FSEntry → List String
  | [] => []
  | e :: es =>
    pomFilePathsSpec (pathJoin path e.name) e ++ pomFilePathsSpecList path es
end

/-- Concatenation of a list of strings (the incremental `+=` of the row
loop, abstracted). -/
def strJoin : List String → String
  | [] => ""
  | s :: rest => s ++ strJoin rest

/-! ### Helper lemmas -/

theorem string_eq_empty_iff_data {s : String} : s = "" ↔ s.data = [] := by
  constructor
  · intro h; subst h; rfl
  · intro h; exact String.ext h

theorem charListLe_total : ∀ a b : List Char,
    charListLe a b = true ∨ charListLe b a = true := by
  intro a
  induction a with
  | nil => intro b; left; rfl
  | cons x xs ih =>
    intro b
    cases b with
    | nil => right; rfl
    | cons y ys =>
      by_cases hxy : x = y
      · subst hxy
        rcases ih ys with h | h
        · left; simpa [charListLe] using h
        · right; simpa [charListLe] using h
      · have hyx : y ≠ x := fun h => hxy h.symm
        rcases lt_trichotomy x y with h | h | h
        · left; simp [charListLe, hxy, h]
        · exact absurd h hxy
        · right; simp [charListLe, hyx, h]

theorem charListLe_trans : ∀ a b c : List Char,
    charListLe a b = true → charListLe b c = true → charListLe a c = true := by
  intro a
  induction a with
  | nil => intro b c _ _; rfl
  | cons x xs ih =>
    intro b c hab hbc
    cases b with
    | nil => simp [charListLe] at hab
    | cons y ys =>
      cases c with
      | nil => simp [charListLe] at hbc
      | cons z zs =>
        by_cases hxy : x = y
        · subst hxy
          have hab' : charListLe xs ys = true := by simpa [charListLe] using hab
          by_cases hxz : x = z
          · subst hxz
            have hbc' : charListLe ys zs = true := by simpa [charListLe] using hbc
            simpa [charListLe] using ih ys zs hab' hbc'
          · simpa [charListLe, hxz] using hbc
        · have hab' : x < y := by simpa [charListLe, hxy] using hab
          by_cases hyz : y = z
          · have hxz : x ≠ z := by rw [← hyz]; exact hxy
            have hlt : x < z := by rw [← hyz]; exact hab'
            simp [charListLe, hxz, hlt]
          · have hbc' : y < z := by simpa [charListLe, hyz] using hbc
            have hlt : x < z := lt_trans hab' hbc'
            have hxz : x ≠ z := ne_of_lt hlt
            simp [charListLe, hxz, hlt]

theorem charListLe_antisymm : ∀ a b : List Char,
    charListLe a b = true → charListLe b a = true → a = b := by
  intro a
  induction a with
  | nil =>
    intro b _ hba
    cases b with
    | nil => rfl
    | cons y ys => simp [charListLe] at hba
  | cons x xs ih =>
    intro b hab hba
    cases b with
    | nil => simp [charListLe] at hab
    | cons y ys =>
      by_cases hxy : x = y
      · subst hxy
        have hab' : charListLe xs ys = true := by simpa [charListLe] using hab
        have hba' : charListLe ys xs = true := by simpa [charListLe] using hba
        rw [ih ys hab' hba']
      · have hyx : y ≠ x := fun h => hxy h.symm
        have h1 : x < y := by simpa [charListLe, hxy] using hab
        have h2 : y < x := by simpa [charListLe, hyx] using hba
        exact absurd h1 (lt_asymm h2)

instance : IsTotal String strLeProp :=
  ⟨fun a b => charListLe_total a.data b.data⟩

instance : IsTrans String strLeProp :=
  ⟨fun a b c => charListLe_trans a.data b.data c.data⟩

instance : IsAntisymm String strLeProp :=
  ⟨fun a b h1 h2 => String.ext (charListLe_antisymm a.data b.data h1 h2)⟩

theorem sortStrings_sorted (l : List String) :
    List.Sorted strLeProp (sortStrings l) :=
  List.sorted_insertionSort strLeProp l

theorem sortStrings_perm (l : List String) : (sortStrings l).Perm l :=
  List.perm_insertionSort strLeProp l

theorem sortStrings_congr {l₁ l₂ : List String} (h : l₁.Perm l₂) :
    sortStrings l₁ = sortStrings l₂ :=
  List.eq_of_perm_of_sorted
    ((sortStrings_perm l₁).trans (h.trans (sortStrings_perm l₂).symm))
    (sortStrings_sorted l₁) (sortStrings_sorted l₂)

/-! ### C1 -/

/-- The descriptor of C1's counterexample: `groupId` present but with no
text (`<groupId></groupId>` parses with `text = None`), `artifactId`
present with text. -/
def c1root : XElem :=
  .mk "project" none
    [.mk "groupId" none [], .mk "artifactId" (some "a") []]

/-- C1 counterexample extraction input. -/
def c1inp : PomInput := { path := "p1", parsed := some c1root, envLines := none }

/-- The record the code produces for `c1inp`: the empty-text `groupId`
is interpolated as the string `None`. -/
def c1rec : ProjectRecord :=
  { name := "None:<b>a</b>", apiDependencies := [], dependencies := [],
    envVariables := [], path := "p1" }

/-- C1, counterexample: a descriptor whose `groupId` element is present
but has empty (absent) text still yields a record — the code checks only
element presence, never that the text is non-empty, so the claim's
"non-empty text" condition does not hold of the code. -/
theorem c1_counterexample :
    extract_project_info c1inp = .ok (some c1rec) ∧
    (findChild c1root "groupId").map XElem.text = some none :=
  ⟨rfl, rfl⟩

/-- C1, amended: `extract_project_info` produces a record only when both
the `groupId` and `artifactId` elements are present as direct children
of the root (their text may be empty); when the document parses and
either element is missing, it returns absent (a skip), so no row for
that file appears in the report. -/
theorem c1_record_only_with_identifiers :
    (∀ inp r, extract_project_info inp = .ok (some r) →
      ∃ root gEl aEl, inp.parsed = some root ∧
        findChild root "groupId" = some gEl ∧
        findChild root "artifactId" = some aEl) ∧
    (∀ inp root, inp.parsed = some root →
      (findChild root "groupId" = none ∨ findChild root "artifactId" = none) →
      extract_project_info inp = .ok none) := by
  constructor
  · intro inp r h
    obtain ⟨path, parsed, env⟩ := inp
    cases parsed with
    | none => simp [extract_project_info, extractBody] at h
    | some root =>
      cases hg : findChild root "groupId" with
      | none => simp [extract_project_info, extractBody, hg] at h
      | some gEl =>
        cases ha : findChild root "artifactId" with
        | none => simp [extract_project_info, extractBody, hg, ha] at h
        | some aEl => exact ⟨root, gEl, aEl, rfl, hg, ha⟩
  · intro inp root hp hmiss
    obtain ⟨path, parsed, env⟩ := inp
    cases hp
    rcases hmiss with hg | ha
    · simp [extract_project_info, extractBody, hg]
    · cases hg : findChild root "groupId" with
      | none => simp [extract_project_info, extractBody, hg]
      | some gEl => simp [extract_project_info, extractBody, hg, ha]

/-- A descriptor with `groupId` but no `artifactId` child. -/
def c1missRoot : XElem := .mk "project" none [.mk "groupId" (some "g") []]

/-- Extraction input whose root lacks `artifactId`. -/
def c1missInp : PomInput :=
  { path := "p1m", parsed := some c1missRoot, envLines := none }

/-- Witness for C1's amended theorem at a concrete descriptor missing
`artifactId`. -/
theorem c1_record_only_with_identifiers_witness :
    extract_project_info c1missInp = .ok none :=
  c1_record_only_with_identifiers.2 c1missInp c1missRoot rfl (Or.inr rfl)

/-! ### C2 -/

/-- C2 failing input: a well-formed descriptor with both identifiers and
an `artifactItem` whose `version` element is present but empty
(`<version></version>`, `text = None`). -/
def c2root : XElem :=
  .mk "project" none
    [.mk "groupId" (some "g") [], .mk "artifactId" (some "a") [],
     .mk "build" none
       [.mk "artifactItem" none
         [.mk "groupId" (some "ig") [], .mk "artifactId" (some "ia") [],
          .mk "version" none []]]]

/-- C2 failing extraction input. -/
def c2inp : PomInput := { path := "p2", parsed := some c2root, envLines := none }

/-- A second, perfectly well-formed input queued after the failing one. -/
def c2goodInp : PomInput :=
  { path := "p2b",
    parsed := some (.mk "project" none
      [.mk "groupId" (some "g2") [], .mk "artifactId" (some "a2") []]),
    envLines := none }

/-- C2: on an `artifactItem` whose `version` element has no text, the
body evaluates `"${" in None`, raising `TypeError`, which the
`except (ParseError, AttributeError)` clause does not catch — extraction
raises an uncaught exception instead of logging and returning absent,
and the run aborts before reaching the next file. -/
theorem c2_empty_version_uncaught :
    extract_project_info c2inp = .error .typeError ∧
    processProjectsLoop [c2inp, c2goodInp] htmlHeader 1 =
      .error .typeError :=
  ⟨rfl, rfl⟩

/-! ### Placeholder lemmas for C3 and C9 -/

theorem placeholder_data (p : String) :
    ("$\x7b" ++ p ++ "\x7d").data = '$' :: '\x7b' :: (p.data ++ ['\x7d']) := by
  have h1 : ("$\x7b".data) = ['$', '\x7b'] := rfl
  have h2 : ("\x7d".data) = ['\x7d'] := rfl
  simp [String.data_append, h1, h2]

theorem listContainsSub_prefix (n l : List Char)
    (h : n.isPrefixOf l = true) : listContainsSub n l = true := by
  cases l with
  | nil =>
    cases n with
    | nil => rfl
    | cons c cs => simp [List.isPrefixOf] at h
  | cons c cs => simp [listContainsSub, h]

theorem listContainsSub_concat (c : Char) :
    ∀ l : List Char, listContainsSub [c] (l ++ [c]) = true := by
  intro l
  induction l with
  | nil => simp [listContainsSub, List.isPrefixOf]
  | cons a as ih => simp [listContainsSub, ih]

theorem pyIn_open (p : String) :
    pyIn "$\x7b" ("$\x7b" ++ p ++ "\x7d") = true := by
  unfold pyIn
  rw [placeholder_data p]
  apply listContainsSub_prefix
  rw [show ("$\x7b".data) = ['$', '\x7b'] from rfl]
  simp [List.isPrefixOf]

theorem pyIn_close (p : String) :
    pyIn "\x7d" ("$\x7b" ++ p ++ "\x7d") = true := by
  unfold pyIn
  rw [placeholder_data p]
  have h : ('$' :: '\x7b' :: (p.data ++ ['\x7d'])) =
      ('$' :: '\x7b' :: p.data) ++ ['\x7d'] := by simp
  rw [h]
  exact listContainsSub_concat '\x7d' ('$' :: '\x7b' :: p.data)

theorem pySlice2m1_placeholder (p : String) :
    pySlice2m1 ("$\x7b" ++ p ++ "\x7d") = p := by
  unfold pySlice2m1
  rw [placeholder_data p]
  show ((p.data ++ ['\x7d']).dropLast).asString = p
  rw [List.dropLast_concat]
  rfl

/-! ### C3 -/

/-- C3: an `artifactItem` version text of exactly `${p}` is resolved
against the root's properties block: when `properties` has a child `p`
with (non-empty) text `v`, the recorded string is `group:artifact (v)`;
when no child `p` exists under `properties`, the raw placeholder is kept
verbatim, `group:artifact (${p})`. -/
theorem c3_placeholder_resolution :
    ∀ root item gEl aEl vEl props p,
      findChild item "groupId" = some gEl →
      findChild item "artifactId" = some aEl →
      findChild item "version" = some vEl →
      vEl.text = some ("$\x7b" ++ p ++ "\x7d") →
      findChild root "properties" = some props →
      ((∀ pEl v, findChild props p = some pEl → pEl.text = some v → v ≠ "" →
          formatApiItem root item = .ok (apiString gEl.text aEl.text v)) ∧
       (findChild props p = none →
          formatApiItem root item =
            .ok (apiString gEl.text aEl.text ("$\x7b" ++ p ++ "\x7d")))) := by
  intro root item gEl aEl vEl props p hg ha hv ht hprops
  constructor
  · intro pEl v hpEl htext hne
    simp [formatApiItem, hg, ha, hv, ht, pyIn_open p, pyIn_close p,
          pySlice2m1_placeholder p, resolve_property, hprops, hpEl, htext, hne]
  · intro hnone
    simp [formatApiItem, hg, ha, hv, ht, pyIn_open p, pyIn_close p,
          pySlice2m1_placeholder p, resolve_property, hprops, hnone]

/-- C3 witness descriptor root: `properties` declares `x` = `1.2.3` and
nothing else. -/
def c3wroot : XElem :=
  .mk "project" none
    [.mk "groupId" (some "g") [], .mk "artifactId" (some "a") [],
     .mk "properties" none [.mk "x" (some "1.2.3") []]]

/-- C3 witness item with version `${x}` (resolvable). -/
def c3it1 : XElem :=
  .mk "artifactItem" none
    [.mk "groupId" (some "ig") [], .mk "artifactId" (some "ia") [],
     .mk "version" (some "$\x7bx\x7d") []]

/-- C3 witness item with version `${z}` (unresolvable). -/
def c3it2 : XElem :=
  .mk "artifactItem" none
    [.mk "groupId" (some "ig2") [], .mk "artifactId" (some "ia2") [],
     .mk "version" (some "$\x7bz\x7d") []]

/-- Witness for C3: `${x}` resolves to `1.2.3`, `${z}` stays verbatim. -/
theorem c3_placeholder_resolution_witness :
    formatApiItem c3wroot c3it1 = .ok "ig:ia (1.2.3)" ∧
    formatApiItem c3wroot c3it2 = .ok "ig2:ia2 ($\x7bz\x7d)" :=
  ⟨(c3_placeholder_resolution c3wroot c3it1
      (.mk "groupId" (some "ig") []) (.mk "artifactId" (some "ia") [])
      (.mk "version" (some "$\x7bx\x7d") [])
      (.mk "properties" none [.mk "x" (some "1.2.3") []]) "x"
      rfl rfl rfl rfl rfl).1
      (.mk "x" (some "1.2.3") []) "1.2.3" rfl rfl (by decide),
   (c3_placeholder_resolution c3wroot c3it2
      (.mk "groupId" (some "ig2") []) (.mk "artifactId" (some "ia2") [])
      (.mk "version" (some "$\x7bz\x7d") [])
      (.mk "properties" none [.mk "x" (some "1.2.3") []]) "z"
      rfl rfl rfl rfl rfl).2 rfl⟩

/-! ### C9 -/

/-- C9: when the version text is exactly `${p}` and `properties` does
contain a child `p` but that child has no text (`<p></p>`,
`text = None`), the truthiness test on the resolved value fails and the
recorded string keeps the raw placeholder, not an empty version. -/
theorem c9_empty_property_keeps_placeholder :
    ∀ root item gEl aEl vEl props pEl p,
      findChild item "groupId" = some gEl →
      findChild item "artifactId" = some aEl →
      findChild item "version" = some vEl →
      vEl.text = some ("$\x7b" ++ p ++ "\x7d") →
      findChild root "properties" = some props →
      findChild props p = some pEl →
      pEl.text = none →
      formatApiItem root item =
        .ok (apiString gEl.text aEl.text ("$\x7b" ++ p ++ "\x7d")) := by
  intro root item gEl aEl vEl props pEl p hg ha hv ht hprops hpEl htext
  simp [formatApiItem, hg, ha, hv, ht, pyIn_open p, pyIn_close p,
        pySlice2m1_placeholder p, resolve_property, hprops, hpEl, htext]

/-- C9 witness root: `properties` has a child `y` with no text. -/
def c9root : XElem :=
  .mk "project" none
    [.mk "groupId" (some "g") [], .mk "artifactId" (some "a") [],
     .mk "properties" none [.mk "y" none []]]

/-- C9 witness item with version `${y}`. -/
def c9item : XElem :=
  .mk "artifactItem" none
    [.mk "groupId" (some "ig3") [], .mk "artifactId" (some "ia3") [],
     .mk "version" (some "$\x7by\x7d") []]

/-- Witness for C9: the empty `<y/>` property leaves `${y}` verbatim. -/
theorem c9_empty_property_keeps_placeholder_witness :
    formatApiItem c9root c9item = .ok "ig3:ia3 ($\x7by\x7d)" :=
  c9_empty_property_keeps_placeholder c9root c9item
    (.mk "groupId" (some "ig3") []) (.mk "artifactId" (some "ia3") [])
    (.mk "version" (some "$\x7by\x7d") [])
    (.mk "properties" none [.mk "y" none []]) (.mk "y" none []) "y"
    rfl rfl rfl rfl rfl rfl rfl

/-! ### C4 -/

/-- C4: on a successful extraction the stored `apiDependencies` list is
the ascending lexicographic sort of the document-order formatted
`artifactItem` strings — sorted, a permutation of the document-order
list, and invariant under permuting the document order — while the
stored `dependencies` list is the document-order formatted `dependency`
list, unsorted. -/
theorem c4_api_sorted_deps_document_order :
    ∀ inp root gEl aEl api deps,
      inp.parsed = some root →
      findChild root "groupId" = some gEl →
      findChild root "artifactId" = some aEl →
      exceptMapM (formatApiItem root) (findall root "artifactItem") = .ok api →
      exceptMapM formatDep (findall root "dependency") = .ok deps →
      extract_project_info inp =
        .ok (some
          { name := pyStr gEl.text ++ ":<b>" ++ pyStr aEl.text ++ "</b>"
            apiDependencies := sortStrings api
            dependencies := deps
            envVariables := read_env_variables inp.envLines
            path := inp.path }) ∧
      List.Sorted strLeProp (sortStrings api) ∧
      (sortStrings api).Perm api ∧
      ∀ api2, api.Perm api2 → sortStrings api = sortStrings api2 := by
  intro inp root gEl aEl api deps hp hg ha hapi hdeps
  obtain ⟨path, parsed, env⟩ := inp
  have hp' : parsed = some root := hp
  subst hp'
  refine ⟨?_, sortStrings_sorted api, sortStrings_perm api,
    fun api2 h => sortStrings_congr h⟩
  simp [extract_project_info, extractBody, hg, ha, hapi, hdeps]

/-- C4 witness descriptor: two `artifactItem`s whose formatted strings
arrive in descending order, two `dependency` elements in a fixed
document order. -/
def c4root : XElem :=
  .mk "project" none
    [.mk "groupId" (some "g") [], .mk "artifactId" (some "a") [],
     .mk "build" none
       [.mk "artifactItem" none
         [.mk "groupId" (some "zz") [], .mk "artifactId" (some "z") []],
        .mk "artifactItem" none
         [.mk "groupId" (some "aa") [], .mk "artifactId" (some "a") [],
          .mk "version" (some "1") []]],
     .mk "dependencies" none
       [.mk "dependency" none
         [.mk "groupId" (some "g1") [], .mk "artifactId" (some "a1") []],
        .mk "dependency" none
         [.mk "groupId" (some "g0") [], .mk "artifactId" (some "a0") []]]]

/-- C4 witness extraction input. -/
def c4inp : PomInput := { path := "p4", parsed := some c4root, envLines := none }

/-- The record C4's witness input extracts to: API list sorted, plain
dependency list in document order. -/
def c4rec : ProjectRecord :=
  { name := "g:<b>a</b>", apiDependencies := ["aa:a (1)", "zz:z"],
    dependencies := ["g1:a1", "g0:a0"], envVariables := [], path := "p4" }

/-- Witness for C4 on a concrete descriptor with out-of-order items. -/
theorem c4_api_sorted_deps_document_order_witness :
    extract_project_info c4inp = .ok (some c4rec) ∧
    List.Sorted strLeProp (sortStrings ["zz:z", "aa:a (1)"]) ∧
    (sortStrings ["zz:z", "aa:a (1)"]).Perm ["zz:z", "aa:a (1)"] ∧
    sortStrings ["zz:z", "aa:a (1)"] = sortStrings ["aa:a (1)", "zz:z"] := by
  have h := c4_api_sorted_deps_document_order c4inp c4root
    (.mk "groupId" (some "g") []) (.mk "artifactId" (some "a") [])
    ["zz:z", "aa:a (1)"] ["g1:a1", "g0:a0"] rfl rfl rfl rfl rfl
  exact ⟨h.1, h.2.1, h.2.2.1, h.2.2.2 ["aa:a (1)", "zz:z"] (by decide)⟩

/-! ### C5 -/

theorem formatApiItem_err_of_missing (root it : XElem)
    (h : findChild it "groupId" = none ∨ findChild it "artifactId" = none) :
    formatApiItem root it = .error .attributeError := by
  rcases h with h | h
  · simp [formatApiItem, h]
  · rcases hgc : findChild it "groupId" with _ | gEl
    · simp [formatApiItem, hgc]
    · simp [formatApiItem, hgc, h]

theorem formatDep_err_of_missing (d : XElem)
    (h : findChild d "groupId" = none ∨ findChild d "artifactId" = none) :
    formatDep d = .error .attributeError := by
  rcases h with h | h
  · simp [formatDep, h]
  · rcases hgc : findChild d "groupId" with _ | gEl
    · simp [formatDep, hgc]
    · simp [formatDep, hgc, h]

theorem formatApiItem_no_type (root it : XElem)
    (hver : ∀ vEl, findChild it "version" = some vEl → vEl.text ≠ none) :
    formatApiItem root it = .error .attributeError ∨
    ∃ s, formatApiItem root it = .ok s := by
  rcases hgc : findChild it "groupId" with _ | gEl
  · left; simp [formatApiItem, hgc]
  rcases hac : findChild it "artifactId" with _ | aEl
  · left; simp [formatApiItem, hgc, hac]
  rcases hvc : findChild it "version" with _ | vEl
  · right
    exact ⟨pyStr gEl.text ++ ":" ++ pyStr aEl.text,
      by simp [formatApiItem, hgc, hac, hvc]⟩
  rcases htc : vEl.text with _ | vt
  · exact absurd htc (hver vEl hvc)
  right
  by_cases hcond : (pyIn "$\x7b" vt && pyIn "\x7d" vt) = true
  · rcases hres : resolve_property root (pySlice2m1 vt) with _ | rv
    · exact ⟨apiString gEl.text aEl.text vt,
        by simp [formatApiItem, hgc, hac, hvc, htc, hcond, hres]⟩
    · by_cases hrv : rv = ""
      · exact ⟨apiString gEl.text aEl.text vt,
          by simp [formatApiItem, hgc, hac, hvc, htc, hcond, hres, hrv]⟩
      · exact ⟨apiString gEl.text aEl.text rv,
          by simp [formatApiItem, hgc, hac, hvc, htc, hcond, hres, hrv]⟩
  · exact ⟨apiString gEl.text aEl.text vt,
      by simp [formatApiItem, hgc, hac, hvc, htc, hcond]⟩

theorem formatDep_classify (d : XElem) :
    formatDep d = .error .attributeError ∨ ∃ s, formatDep d = .ok s := by
  rcases hgc : findChild d "groupId" with _ | gEl
  · left; simp [formatDep, hgc]
  rcases hac : findChild d "artifactId" with _ | aEl
  · left; simp [formatDep, hgc, hac]
  · right
    exact ⟨pyStr gEl.text ++ ":" ++ pyStr aEl.text,
      by simp [formatDep, hgc, hac]⟩

theorem exceptMapM_error_of_mem {α β : Type _} (f : α → Except PyExc β) :
    ∀ xs : List α,
      (∀ x ∈ xs, f x = .error .attributeError ∨ ∃ y, f x = .ok y) →
      (∃ x ∈ xs, f x = .error .attributeError) →
      exceptMapM f xs = .error .attributeError := by
  intro xs
  induction xs with
  | nil => intro _ hex; rcases hex with ⟨x, hx, _⟩; cases hx
  | cons a as ih =>
    intro hall hex
    rcases hall a (List.mem_cons_self a as) with ha | ⟨y, hy⟩
    · simp [exceptMapM, ha]
    · have hex' : ∃ x ∈ as, f x = .error .attributeError := by
        rcases hex with ⟨x, hx, hfx⟩
        rcases List.mem_cons.mp hx with h | h
        · subst h; rw [hfx] at hy; exact Except.noConfusion hy
        · exact ⟨x, h, hfx⟩
      have hrec := ih (fun z hz => hall z (List.mem_cons_of_mem a hz)) hex'
      simp [exceptMapM, hy, hrec]

theorem exceptMapM_classify {α β : Type _} (f : α → Except PyExc β) :
    ∀ xs : List α,
      (∀ x ∈ xs, f x = .error .attributeError ∨ ∃ y, f x = .ok y) →
      exceptMapM f xs = .error .attributeError ∨
      ∃ l, exceptMapM f xs = .ok l := by
  intro xs
  induction xs with
  | nil => intro _; right; exact ⟨[], rfl⟩
  | cons a as ih =>
    intro hall
    rcases hall a (List.mem_cons_self a as) with ha | ⟨y, hy⟩
    · left; simp [exceptMapM, ha]
    · rcases ih (fun z hz => hall z (List.mem_cons_of_mem a hz)) with hrec | ⟨l, hl⟩
      · left; simp [exceptMapM, hy, hrec]
      · right; exact ⟨y :: l, by simp [exceptMapM, hy, hl]⟩

/-- C5: a descriptor with identifiers present whose `artifactItem` or
`dependency` elements include one lacking a `groupId` or `artifactId`
child fails as a whole: the body raises `AttributeError`, caught as a
generic failure, so extraction returns absent and no record is produced
for the file — the offending element is not skipped individually.  (The
version-text side condition keeps the run clear of the independent
uncaught-`TypeError` slip exposed by C2.) -/
theorem c5_missing_child_fails_whole_file :
    ∀ inp root gEl aEl,
      inp.parsed = some root →
      findChild root "groupId" = some gEl →
      findChild root "artifactId" = some aEl →
      (∀ it ∈ findall root "artifactItem", ∀ vEl,
          findChild it "version" = some vEl → vEl.text ≠ none) →
      ((∃ it ∈ findall root "artifactItem",
          findChild it "groupId" = none ∨ findChild it "artifactId" = none) ∨
       (∃ d ∈ findall root "dependency",
          findChild d "groupId" = none ∨ findChild d "artifactId" = none)) →
      extractBody inp = .error .attributeError ∧
      extract_project_info inp = .ok none := by
  intro inp root gEl aEl hp hg ha hver hbad
  obtain ⟨path, parsed, env⟩ := inp
  have hp' : parsed = some root := hp
  subst hp'
  have hallApi : ∀ it ∈ findall root "artifactItem",
      formatApiItem root it = .error .attributeError ∨
      ∃ s, formatApiItem root it = .ok s :=
    fun it hit => formatApiItem_no_type root it (hver it hit)
  have hbody : extractBody ⟨path, some root, env⟩ = .error .attributeError := by
    rcases hbad with ⟨it, hit, hmiss⟩ | ⟨d, hd, hmiss⟩
    · have happi : exceptMapM (formatApiItem root) (findall root "artifactItem")
          = .error .attributeError :=
        exceptMapM_error_of_mem _ _ hallApi
          ⟨it, hit, formatApiItem_err_of_missing root it hmiss⟩
      simp [extractBody, hg, ha, happi]
    · rcases exceptMapM_classify (formatApiItem root) _ hallApi with
        herr | ⟨l, hok⟩
      · simp [extractBody, hg, ha, herr]
      · have hdep : exceptMapM formatDep (findall root "dependency")
            = .error .attributeError :=
          exceptMapM_error_of_mem _ _ (fun z _ => formatDep_classify z)
            ⟨d, hd, formatDep_err_of_missing d hmiss⟩
        simp [extractBody, hg, ha, hok, hdep]
  exact ⟨hbody, by simp [extract_project_info, hbody]⟩

/-- C5 witness `artifactItem` lacking an `artifactId` child. -/
def c5item : XElem := .mk "artifactItem" none [.mk "groupId" (some "ig") []]

/-- C5 witness descriptor: identifiers present, one malformed
`artifactItem`. -/
def c5root : XElem :=
  .mk "project" none
    [.mk "groupId" (some "g") [], .mk "artifactId" (some "a") [], c5item]

/-- C5 witness extraction input. -/
def c5inp : PomInput := { path := "p5", parsed := some c5root, envLines := none }

/-- Witness for C5 at a concrete malformed descriptor. -/
theorem c5_missing_child_fails_whole_file_witness :
    extractBody c5inp = .error .attributeError ∧
    extract_project_info c5inp = .ok none := by
  apply c5_missing_child_fails_whole_file c5inp c5root
    (.mk "groupId" (some "g") []) (.mk "artifactId" (some "a") [])
    rfl rfl rfl
  · intro it hit vEl hv
    have h2 : it ∈ [c5item] := hit
    have h3 : it = c5item := by simpa using h2
    subst h3
    rw [show findChild c5item "version" = none from rfl] at hv
    exact Option.noConfusion hv
  · exact Or.inl ⟨c5item, List.Mem.head _, Or.inr rfl⟩

/-! ### C7 -/

theorem splitFirstEq_of_not_mem :
    ∀ l : List Char, '=' ∉ l → splitFirstEq l = none := by
  intro l
  induction l with
  | nil => intro _; rfl
  | cons c cs ih =>
    intro h
    have hc : ¬(c = '=') := by
      intro e; subst e; exact h (List.mem_cons_self _ _)
    have hcs : '=' ∉ cs := fun hm => h (List.mem_cons_of_mem _ hm)
    simp [splitFirstEq, hc, ih hcs]

theorem splitFirstEq_of_mem :
    ∀ l : List Char, '=' ∈ l →
      splitFirstEq l =
        some (l.takeWhile (fun c => c != '='),
              (l.dropWhile (fun c => c != '=')).tail) := by
  intro l
  induction l with
  | nil => intro h; cases h
  | cons c cs ih =>
    intro h
    by_cases hc : c = '='
    · subst hc
      simp [splitFirstEq, List.takeWhile_cons, List.dropWhile_cons]
    · have hcs : '=' ∈ cs := by
        rcases List.mem_cons.mp h with h1 | h1
        · exact absurd h1.symm hc
        · exact h1
      simp [splitFirstEq, hc, ih hcs, List.takeWhile_cons, List.dropWhile_cons]

/-- C7: `read_env_variables` yields the empty mapping (never absent)
when the file is missing; the line loop skips blank lines, skips lines
whose first non-whitespace character is `#`, silently ignores lines with
no `=`, and otherwise splits on the first `=` into a stripped key and
stripped value (so `foo.bar=baz=qux` maps `foo.bar` to `baz=qux` and
`KEY=` maps `KEY` to the empty string). -/
theorem c7_env_reader_contract :
    read_env_variables none = [] ∧
    (∀ m s, pyStrip s = "" → processEnvLine m s = m) ∧
    (∀ m s, (pyStrip s).data.head? = some '#' → processEnvLine m s = m) ∧
    (∀ m s, '=' ∉ (pyStrip s).data → processEnvLine m s = m) ∧
    (∀ m s, pyStrip s ≠ "" → startsWithHash (pyStrip s) = false →
      '=' ∈ (pyStrip s).data →
      processEnvLine m s =
        dictInsert m
          (pyStrip ((pyStrip s).data.takeWhile (fun c => c != '=')).asString)
          (pyStrip
            (((pyStrip s).data.dropWhile (fun c => c != '=')).tail).asString)) ∧
    read_env_variables
        (some ["foo.bar=baz=qux", "  # comment", "noeq", "KEY="]) =
      [("foo.bar", "baz=qux"), ("KEY", "")] := by
  refine ⟨rfl, ?_, ?_, ?_, ?_, rfl⟩
  · intro m s h
    simp [processEnvLine, h]
  · intro m s h
    have hne : ¬(pyStrip s = "") := by
      intro e
      rw [string_eq_empty_iff_data] at e
      rw [e] at h
      cases h
    have hhash : startsWithHash (pyStrip s) = true := by
      unfold startsWithHash
      cases hE : (pyStrip s).data with
      | nil => rw [hE] at h; cases h
      | cons a t =>
        rw [hE] at h
        simp only [List.head?] at h
        have ha : a = '#' := Option.some.inj h
        subst ha
        rfl
    simp [processEnvLine, hne, hhash]
  · intro m s hnm
    by_cases he : pyStrip s = ""
    · simp [processEnvLine, he]
    · by_cases hh : startsWithHash (pyStrip s) = true
      · simp [processEnvLine, he, hh]
      · simp [processEnvLine, he, hh, splitFirstEq_of_not_mem _ hnm]
  · intro m s hne hh hm
    simp [processEnvLine, hne, hh, splitFirstEq_of_mem _ hm]

/-- Witness for C7's split case at the line `foo.bar=baz=qux`. -/
theorem c7_env_reader_contract_witness :
    processEnvLine [] "foo.bar=baz=qux" =
      dictInsert []
        (pyStrip
          ((pyStrip "foo.bar=baz=qux").data.takeWhile
            (fun c => c != '=')).asString)
        (pyStrip
          (((pyStrip "foo.bar=baz=qux").data.dropWhile
            (fun c => c != '=')).tail).asString) :=
  c7_env_reader_contract.2.2.2.2.1 [] "foo.bar=baz=qux"
    (by decide) (by decide) (by decide)

/-! ### C10 -/

/-- C10: a line whose first non-whitespace character is `=` is not
ignored — it is split into the empty key and the stripped remainder,
which is inserted into the mapping under the empty-string key. -/
theorem c10_empty_key_line_not_ignored :
    ∀ m s cs, (pyStrip s).data = '=' :: cs →
      processEnvLine m s = dictInsert m "" (pyStrip cs.asString) := by
  intro m s cs hd
  have hne : ¬(pyStrip s = "") := by
    intro e
    rw [string_eq_empty_iff_data] at e
    rw [e] at hd
    cases hd
  have hh : startsWithHash (pyStrip s) = false := by
    unfold startsWithHash
    rw [hd]
    rfl
  have hsplit : splitFirstEq (pyStrip s).data = some ([], cs) := by
    rw [hd]
    simp [splitFirstEq]
  simp [processEnvLine, hne, hh, hsplit]
  rfl

/-- Witness for C10 at the line `=value`. -/
theorem c10_empty_key_line_not_ignored_witness :
    processEnvLine [] "=value" = [("", "value")] :=
  (c10_empty_key_line_not_ignored [] "=value" "value".data rfl).trans rfl

/-! ### C8 -/

theorem processProjectsLoop_eq :
    ∀ files : List PomInput,
      (∀ f ∈ files, extractionOk f = true) →
      ∀ html counter,
        processProjectsLoop files html counter =
          .ok (html ++ strJoin
                (((List.range' counter (successfulRecords files).length).zip
                    (successfulRecords files)).map
                  (fun pr => renderRow pr.1 pr.2)),
               counter + (successfulRecords files).length) := by
  intro files
  induction files with
  | nil =>
    intro _ html counter
    simp [processProjectsLoop, successfulRecords, strJoin]
  | cons f fs ih =>
    intro hall html counter
    have hf := hall f (List.mem_cons_self f fs)
    have hfs : ∀ g ∈ fs, extractionOk g = true :=
      fun g hg => hall g (List.mem_cons_of_mem f hg)
    unfold extractionOk at hf
    cases hx : extract_project_info f with
    | error e => rw [hx] at hf; cases hf
    | ok r =>
      cases r with
      | none =>
        have hrec := ih hfs html counter
        have hsr : successfulRecords (f :: fs) = successfulRecords fs := by
          simp [successfulRecords, hx]
        simp only [processProjectsLoop, hx, hsr]
        exact hrec
      | some record =>
        have hrec := ih hfs (html ++ renderRow counter record) (counter + 1)
        have hsr : successfulRecords (f :: fs) =
            record :: successfulRecords fs := by
          simp [successfulRecords, hx]
        have hstep : processProjectsLoop (f :: fs) html counter =
            processProjectsLoop fs (html ++ renderRow counter record)
              (counter + 1) := by
          simp [processProjectsLoop, hx]
        rw [hstep, hrec, hsr]
        simp only [List.length_cons, List.range'_succ, List.zip_cons_cons,
          List.map_cons, strJoin, String.append_assoc]
        have harith : counter + 1 + (successfulRecords fs).length =
            counter + ((successfulRecords fs).length + 1) := by omega
        rw [harith]
        rfl

/-- C8: when no file crashes extraction, the run's row stream is exactly
one row per successfully extracted record in production order, and the
index column over the emitted rows is the dense 1-based sequence
`1..N` — a skipped file consumes no counter slot and leaves no gap. -/
theorem c8_rows_dense_one_based :
    ∀ files : List PomInput,
      (∀ f ∈ files, extractionOk f = true) →
      processProjectsLoop files htmlHeader 1 =
        .ok (htmlHeader ++ strJoin
              (((List.range' 1 (successfulRecords files).length).zip
                  (successfulRecords files)).map
                (fun pr => renderRow pr.1 pr.2)),
             1 + (successfulRecords files).length) ∧
      process_projects files =
        .ok ((htmlHeader ++ strJoin
              (((List.range' 1 (successfulRecords files).length).zip
                  (successfulRecords files)).map
                (fun pr => renderRow pr.1 pr.2))) ++ "</table>" ++ "</div>") := by
  intro files hall
  have h := processProjectsLoop_eq files hall htmlHeader 1
  exact ⟨h, by simp [process_projects, h]⟩

/-- C8 witness: a well-formed descriptor input. -/
def c8good1 : PomInput :=
  { path := "q1",
    parsed := some (.mk "project" none
      [.mk "groupId" (some "g1") [], .mk "artifactId" (some "a1") []]),
    envLines := none }

/-- C8 witness: a descriptor missing `artifactId`, skipped by
extraction. -/
def c8skip : PomInput :=
  { path := "q2",
    parsed := some (.mk "project" none [.mk "groupId" (some "g2") []]),
    envLines := none }

/-- C8 witness: a second well-formed descriptor input. -/
def c8good2 : PomInput :=
  { path := "q3",
    parsed := some (.mk "project" none
      [.mk "groupId" (some "g3") [], .mk "artifactId" (some "a3") []]),
    envLines := none }

/-- C8 witness run: good file, skipped file, good file. -/
def c8files : List PomInput := [c8good1, c8skip, c8good2]

/-- Witness for C8: with a skip in the middle, rows get indices 1 and 2
with no gap. -/
theorem c8_rows_dense_one_based_witness :
    processProjectsLoop c8files htmlHeader 1 =
      .ok (htmlHeader ++ strJoin
            (((List.range' 1 (successfulRecords c8files).length).zip
                (successfulRecords c8files)).map
              (fun pr => renderRow pr.1 pr.2)),
           1 + (successfulRecords c8files).length) ∧
    List.range' 1 (successfulRecords c8files).length = [1, 2] :=
  ⟨(c8_rows_dense_one_based c8files (by decide)).1, by decide⟩

/-! ### C6 -/

mutual
theorem walkEntry_pom_eq : ∀ (path : String) (e : FSEntry),
    ((walkEntry path e).flatMap (fun pr =>
      (pr.2.filter (fun f => f == "pom.xml")).map (fun f => pathJoin pr.1 f))) =
    pomFilePathsSpec path e
  | path, .file n => by simp [walkEntry, pomFilePathsSpec]
  | path, .dir n cs => by
    simp [walkEntry, pomFilePathsSpec, walkChildren_pom_eq path cs]

theorem walkChildren_pom_eq : ∀ (path : String) (es : List FSEntry),
    ((walkChildren path es).flatMap (fun pr =>
      (pr.2.filter (fun f => f == "pom.xml")).map (fun f => pathJoin pr.1 f))) =
    pomFilePathsSpecList path es
  | path, [] => by simp [walkChildren, pomFilePathsSpecList]
  | path, e :: es => by
    simp [walkChildren, pomFilePathsSpecList, List.flatMap_append,
      walkEntry_pom_eq (pathJoin path e.name) e, walkChildren_pom_eq path es]
end

theorem find_pom_files_nonrec_mem (rootPath : String) (root : FSEntry)
    (p : String) :
    p ∈ find_pom_files rootPath root false ↔
    ∃ d ∈ dirChildren root, d.isDir = true ∧
      hasEntryNamed d "pom.xml" = true ∧
      p = pathJoin (pathJoin rootPath d.name) "pom.xml" := by
  unfold find_pom_files
  rw [if_neg (by simp)]
  rw [List.mem_filterMap]
  constructor
  · rintro ⟨d, hd, hsome⟩
    rw [List.mem_filter] at hd
    by_cases hh : hasEntryNamed d "pom.xml" = true
    · rw [if_pos hh] at hsome
      exact ⟨d, hd.1, hd.2, hh, (Option.some.inj hsome).symm⟩
    · rw [if_neg hh] at hsome
      cases hsome
  · rintro ⟨d, hd, hdir, hh, hp⟩
    refine ⟨d, List.mem_filter.mpr ⟨hd, hdir⟩, ?_⟩
    rw [if_pos hh, hp]

/-- The spec's traversal example: a root with subfolders `A/pom.xml` and
`B/nested/pom.xml`. -/
def exampleFS : FSEntry :=
  .dir "root"
    [.dir "A" [.file "pom.xml"],
     .dir "B" [.dir "nested" [.file "pom.xml"]]]

/-- A filesystem where the only entry named `pom.xml` is a directory:
`root/A/pom.xml/` with nothing inside. -/
def c6fs : FSEntry := .dir "root" [.dir "A" [.dir "pom.xml" []]]

/-- C6, counterexample: non-recursive traversal uses an existence check
(`os.path.exists`) that does not distinguish files from directories, so
over a root whose subfolder `A` contains a directory named `pom.xml` it
returns `root/A/pom.xml` even though no file named `pom.xml` exists
anywhere in the tree (the file collector and the recursive walk both
find nothing). -/
theorem c6_counterexample :
    find_pom_files "root" c6fs false = ["root/A/pom.xml"] ∧
    pomFilePathsSpec "root" c6fs = [] ∧
    find_pom_files "root" c6fs true = [] :=
  ⟨rfl, rfl, rfl⟩

/-- C6, amended: non-recursive traversal returns exactly the paths
`rootPath/d/pom.xml` for the direct subdirectories `d` of the root
containing an entry named `pom.xml` of any kind (descending no further,
and never a `pom.xml` in the root itself); recursive traversal returns
exactly the paths of the files named `pom.xml` at any depth of the
subtree; over the spec's example with subfolders `A/pom.xml` and
`B/nested/pom.xml`, non-recursive finds only `A`'s and recursive finds
both. -/
theorem c6_traversal_characterization :
    (∀ rootPath root p,
      p ∈ find_pom_files rootPath root false ↔
      ∃ d ∈ dirChildren root, d.isDir = true ∧
        hasEntryNamed d "pom.xml" = true ∧
        p = pathJoin (pathJoin rootPath d.name) "pom.xml") ∧
    (∀ rootPath root,
      find_pom_files rootPath root true = pomFilePathsSpec rootPath root) ∧
    find_pom_files "root" exampleFS false = ["root/A/pom.xml"] ∧
    find_pom_files "root" exampleFS true =
      ["root/A/pom.xml", "root/B/nested/pom.xml"] := by
  refine ⟨find_pom_files_nonrec_mem, ?_, rfl, rfl⟩
  intro rootPath root
  unfold find_pom_files
  rw [if_pos rfl]
  exact walkEntry_pom_eq rootPath root

/-- Witness for C6's amended characterization: membership of `A`'s
descriptor path in the non-recursive result over the example tree. -/
theorem c6_traversal_characterization_witness :
    "root/A/pom.xml" ∈ find_pom_files "root" exampleFS false :=
  (c6_traversal_characterization.1 "root" exampleFS "root/A/pom.xml").mpr
    ⟨.dir "A" [.file "pom.xml"], List.Mem.head _, rfl, rfl, rfl⟩
